import Mathlib

/-!
Verification development for the `vscode-rgss-scripts` extension
(`src/extension.ts`, class `RGSS_Scripts`, the current version at the top of
the file).  The TypeScript code is shallowly embedded: JavaScript strings are
`List Char`, byte arrays (`Uint8Array`) are modelled by their decoded character
sequences (`TextEncoder`/`TextDecoder` become the identity), archive records
`[magic, title, code]` become the structure `Item`, and each filesystem-provider
operation becomes a pure function from the open archive entry to a result
carrying the possibly-thrown error, the mutated entry and the buffered
`FileChangeEvent`s.  `Math.random()*32768|0` tags are supplied by an explicit
list of naturals consumed left to right.
-/

namespace RGSS

/-- JavaScript strings, modelled as lists of characters. -/
abbrev Str := List Char

/-- `String → Str` coercion helper for literals. -/
def strL (s : String) : Str := s.data

/-- Boolean string-prefix test (`pat` begins `s`), used to model
`String.prototype.indexOf`/`includes`/`endsWith`. -/
def isPfx : Str → Str → Bool
  | [], _ => true
  | _ :: _, [] => false
  | a :: as, b :: bs => a = b && isPfx as bs

/-- First index at which `pat` occurs in `s` (JS `s.indexOf(pat)`, with `none`
for `-1`). -/
def firstIdx (pat : Str) : Str → Option Nat
  | [] => if isPfx pat [] then some 0 else none
  | c :: rest => if isPfx pat (c :: rest) then some 0 else (firstIdx pat rest).map (· + 1)

/-- JS `s.indexOf(pat, start)`. -/
def jsIndexOfFrom (s pat : Str) (start : Nat) : Option Nat :=
  (firstIdx pat (s.drop start)).map (· + start)

/-- JS `s.endsWith(pat)`. -/
def jsEndsWith (s pat : Str) : Bool := isPfx pat.reverse s.reverse

/-- The marker segment `"/Scripts.rvdata2"` (16 characters) looked up by
`RGSS_Scripts.parse` (extension.ts:25). -/
def marker : Str := strL "/Scripts.rvdata2"

/-- Whitespace skipped by JS `Number.parseInt`. -/
def isWsChar (c : Char) : Bool := c = ' ' || c = '\t' || c = '\n' || c = '\r'

/-- Decimal digit value of a character, if any. -/
def digVal (c : Char) : Option Nat :=
  if 48 ≤ c.toNat ∧ c.toNat ≤ 57 then some (c.toNat - 48) else none

/-- Hexadecimal digit value of a character, if any. -/
def hexDigVal (c : Char) : Option Nat :=
  if 48 ≤ c.toNat ∧ c.toNat ≤ 57 then some (c.toNat - 48)
  else if 97 ≤ c.toNat ∧ c.toNat ≤ 102 then some (c.toNat - 87)
  else if 65 ≤ c.toNat ∧ c.toNat ≤ 70 then some (c.toNat - 55)
  else none

/-- Accumulate the longest digit run at the head of the string. -/
def parseDigitsAux (f : Char → Option Nat) (base : Nat) : Str → Nat → Nat
  | [], acc => acc
  | c :: rest, acc =>
    match f c with
    | some d => parseDigitsAux f base rest (acc * base + d)
    | none => acc

/-- Value of the longest digit run at the head of the string; `none` when the
first character is not a digit (JS `NaN`). -/
def parseDigitsPfx (f : Char → Option Nat) (base : Nat) : Str → Option Nat
  | [] => none
  | c :: rest =>
    match f c with
    | some d => some (parseDigitsAux f base rest d)
    | none => none

/-- Unsigned body of JS `Number.parseInt` (radix auto-detection: a `0x`/`0X`
prefix selects base 16, otherwise base 10). -/
def parseBody (l : Str) : Option Nat :=
  match l with
  | c0 :: c :: r =>
    if c0 = '0' ∧ (c = 'x' ∨ c = 'X') then parseDigitsPfx hexDigVal 16 r
    else parseDigitsPfx digVal 10 (c0 :: c :: r)
  | _ => parseDigitsPfx digVal 10 l

/-- JS `Number.parseInt(s)` (no explicit radix), with `none` for `NaN`. -/
def jsParseInt (s : Str) : Option Int :=
  match s.dropWhile isWsChar with
  | [] => none
  | c :: r =>
    if c = '-' then (parseBody r).map (fun n => -(n : Int))
    else if c = '+' then (parseBody r).map (fun n => (n : Int))
    else (parseBody (c :: r)).map (fun n => (n : Int))

/-- Result of `RGSS_Scripts.parse`: archive file path, record index (`-1` for
the archive root) and record title (extension.ts:21). -/
structure ParsedPath where
  file : Str
  index : Int
  title : Str
deriving DecidableEq, Repr

/-- `RGSS_Scripts.parse` (extension.ts:21-49), non-Windows branch: locate the
`"/Scripts.rvdata2"` marker, return the root sentinel if the path ends there,
otherwise split the remainder as `{digits}_{title}` with an optional `.rb`
suffix stripped from the title, rejecting titles containing `/`. -/
def parse (p : Str) : Option ParsedPath :=
  match firstIdx marker p with
  | none => none
  | some idx =>
    if p.length = idx + 16 then some ⟨p, -1, []⟩
    else if p.get? (idx + 16) ≠ some '/' then none
    else
      let file := p.take (idx + 16)
      let rest := p.drop (idx + 17)
      match firstIdx ['_'] rest with
      | none => none
      | some sep =>
        match jsParseInt (rest.take sep) with
        | none => none
        | some n =>
          let title := rest.drop (sep + 1)
          if title.contains '/' then none
          else
            let title2 := if jsEndsWith title (strL ".rb") then title.take (title.length - 3) else title
            some ⟨file, n, title2⟩

/-- Character for a decimal digit (`0 ≤ d ≤ 9`). -/
def dchar (d : Nat) : Char :=
  match d with
  | 0 => '0'
  | 1 => '1'
  | 2 => '2'
  | 3 => '3'
  | 4 => '4'
  | 5 => '5'
  | 6 => '6'
  | 7 => '7'
  | 8 => '8'
  | _ => '9'

/-- Decimal rendering of a natural number (JS `Number.prototype.toString`),
via a structural fuel so that it reduces inside the kernel. -/
def natToStrAux : Nat → Nat → Str
  | 0, _ => []
  | fuel + 1, n => if n < 10 then [dchar n] else natToStrAux fuel (n / 10) ++ [dchar (n % 10)]

/-- Decimal rendering of a natural number. -/
def natToStr (n : Nat) : Str := natToStrAux (n + 1) n

/-- Decimal rendering of an integer. -/
def intToStr (i : Int) : Str :=
  if i < 0 then '-' :: natToStr i.natAbs else natToStr i.toNat

/-- JS `s.padStart(3, '0')`. -/
def padStart3 (s : Str) : Str := List.replicate (3 - s.length) '0' ++ s

/-- JS `s.padStart(w, c)`. -/
def padStartWith (w : Nat) (c : Char) (s : Str) : Str := List.replicate (w - s.length) c ++ s

/-- `RGSS_Scripts.name_` (extension.ts:51-53): the canonical virtual filename
`{index padded to 3 digits}_{title}.rb`. -/
def name_ (index : Nat) (title : Str) : Str :=
  padStart3 (natToStr index) ++ '_' :: (title ++ strL ".rb")

/-- One archive record, `RGSS_Scripts_Data_Item = [magic, title, code]`
(extension.ts:7).  `code` is the inflated payload, modelled by its decoded
character sequence. -/
structure Item where
  magic : Nat
  title : Str
  code : Str
deriving DecidableEq, Repr

/-- The fields of an open `CacheEntry` (extension.ts:9) that the claims
observe: the record list and the persisted `stat.size` (which `_flush` sets to
`contents.length`, extension.ts:116).  `ctime`/`mtime` are wall-clock values
supplied by the host and are not modelled. -/
structure Entry where
  contents : List Item
  size : Nat
deriving DecidableEq, Repr

/-- `vscode.FileChangeType`. -/
inductive EventType
  | created
  | changed
  | deleted
deriving DecidableEq, Repr

/-- One buffered `vscode.FileChangeEvent`; the uri is modelled by its path
string `file ++ "/" ++ name_ index title`. -/
structure Event where
  type : EventType
  uri : Str
deriving DecidableEq, Repr

/-- The `vscode.FileSystemError` variants thrown by the provider, plus
`typeErr` for an untyped JavaScript `TypeError` (reading a property of
`undefined`). -/
inductive FsErr
  | notFound
  | noPermissions
  | fileExists
  | isADirectory
  | notADirectory
  | unavailable
  | typeErr
deriving DecidableEq, Repr

/-- Result of one mutating provider operation: the error thrown (if any), the
entry as left in the cache, and the `FileChangeEvent`s buffered via
`_fireSoon`, in firing order. -/
structure OpResult where
  error : Option FsErr
  entry : Entry
  events : List Event
deriving DecidableEq, Repr

/-- `RGSS_Scripts._empty` (extension.ts:98-100); the random
`(Math.random() * 32768) | 0` tag is supplied explicitly. -/
def emptyItem (tag : Nat) : Item := ⟨tag, [], []⟩

/-- Whether a record is a placeholder (empty title AND empty payload). -/
def isEmptyItem (it : Item) : Bool := it.title.isEmpty && it.code.isEmpty

/-- `RGSS_Scripts._uri` (extension.ts:102-104): path of the uri of slot `i`,
reading the stored title `arr[i][1]`; `none` models the JS `TypeError` thrown
when `arr[i]` is `undefined`. -/
def uriOf (f : Str) (arr : List Item) (i : Nat) : Option Str :=
  (arr.get? i).map fun it => f ++ '/' :: name_ i it.title

/-- The record-triple sequence handed to `marshal.dump` by `_flush`
(extension.ts:107-112); `TextEncoder.encode` and `deflate` are deterministic
pure byte transforms, so equality of this sequence is equivalent to
byte-identity of the written archive file. -/
def flushData (contents : List Item) : List (Nat × Str × Str) :=
  contents.map fun it => (it.magic, it.title, it.code)

/-- The cache-entry update performed by `_flush` (extension.ts:113-117):
`stat.size` becomes `contents.length` (the persisted record count). -/
def doFlush (e : Entry) : Entry := ⟨e.contents, e.contents.length⟩

/-- The file type stored in a `vscode.FileStat`. -/
inductive FType
  | file
  | directory
deriving DecidableEq, Repr

/-- The `vscode.FileStat` fields the claims observe. -/
structure FileStat where
  ftype : FType
  size : Nat
deriving DecidableEq, Repr

/-- `RGSS_Scripts.stat` (extension.ts:153-176) on an already-open entry:
unparsable path or lookup miss (no slot at the index, or stored title differs
from the path's title) throws `FileNotFound`; the root sentinel returns the
directory stat; otherwise a file stat sized by the payload. -/
def statOp (p : Str) (e : Entry) : Except FsErr FileStat :=
  match parse p with
  | none => .error .notFound
  | some info =>
    if info.index < 0 then .ok ⟨.directory, e.size⟩
    else
      match e.contents.get? info.index.toNat with
      | none => .error .notFound
      | some it =>
        if it.title ≠ info.title then .error .notFound
        else .ok ⟨.file, it.code.length⟩

/-- `RGSS_Scripts.readFile` (extension.ts:193-206): stat first (propagating
its error), reject directories, then return the stored payload. -/
def readFileOp (p : Str) (e : Entry) : Except FsErr Str :=
  match statOp p e with
  | .error err => .error err
  | .ok st =>
    if st.ftype ≠ .file then .error .isADirectory
    else
      match parse p with
      | none => .error .notFound
      | some info =>
        match e.contents.get? info.index.toNat with
        | none => .error .typeErr
        | some it => .ok it.code

/-- The `while (info.index > entry.contents.length)` placeholder-append loop
of `writeFile` (extension.ts:223-229).  Each iteration pushes a fresh empty
record and then builds a `Created` event with
`this._uri(info.file, entry.contents, info.index)` — note `info.index`, the
final target index, not the index of the slot just appended; when that slot
does not exist yet the `_uri` access `arr[index][1]` throws a `TypeError`.
Returns (records, remaining tags, events fired, error). -/
def padLoop (f : Str) (k : Nat) : Nat → List Item → List Nat → List Item × List Nat × List Event × Option FsErr
  | 0, arr, rng => (arr, rng, [], none)
  | fuel + 1, arr, rng =>
    if k > arr.length then
      let arr' := arr ++ [emptyItem (rng.headD 0)]
      match uriOf f arr' k with
      | none => (arr', rng.tail, [], some .typeErr)
      | some u =>
        match padLoop f k fuel arr' rng.tail with
        | (arr2, rng2, evs, err) => (arr2, rng2, ⟨.created, u⟩ :: evs, err)
    else (arr, rng, [], none)

/-- `RGSS_Scripts.writeFile` (extension.ts:208-238).  After the guards, the
placeholder loop runs, the target slot is replaced by a fresh record carrying
the path's title and the new content (line 231 reads
`this._empty() || entry.contents[info.index]`; `_empty()` is always truthy, so
the fallback is dead and the slot's previous magic tag is discarded), a single
`Created`-or-`Changed` event is fired, and the entry is flushed. -/
def writeFileOp (p : Str) (content : Str) (create overwrite : Bool) (rng : List Nat) (e : Entry) : OpResult :=
  match parse p with
  | none => ⟨some .noPermissions, e, []⟩
  | some info =>
    if info.index < 0 then ⟨some .noPermissions, e, []⟩
    else
      let k := info.index.toNat
      let exist := e.contents.get? k
      if create = false ∧ exist = none then ⟨some .notFound, e, []⟩
      else if create = true ∧ overwrite = false ∧ exist ≠ none then ⟨some .fileExists, e, []⟩
      else
        match padLoop info.file k (k + 1) e.contents rng with
        | (arr1, rng1, evs, someErr) =>
          match someErr with
          | some err => ⟨some err, ⟨arr1, e.size⟩, evs⟩
          | none =>
            let evType := if k = arr1.length then EventType.created else EventType.changed
            let item : Item := ⟨rng1.headD 0, info.title, content⟩
            let arr2 := if k = arr1.length then arr1 ++ [item] else arr1.set k item
            ⟨none, ⟨arr2, arr2.length⟩, evs ++ [⟨evType, (uriOf info.file arr2 k).getD []⟩]⟩

/-- The `while (newInfo.index > entry.contents.length)` loop of `rename`
(extension.ts:296-302); unlike `writeFile`'s loop it fires the `Created` event
for `entry.contents.length - 1`, the slot just appended, so it never throws. -/
def renamePadLoop (f : Str) (j : Nat) : Nat → List Item → List Nat → List Item × List Nat × List Event
  | 0, arr, rng => (arr, rng, [])
  | fuel + 1, arr, rng =>
    if j > arr.length then
      let arr' := arr ++ [emptyItem (rng.headD 0)]
      let u := (uriOf f arr' (arr'.length - 1)).getD []
      match renamePadLoop f j fuel arr' rng.tail with
      | (arr2, rng2, evs) => (arr2, rng2, ⟨.created, u⟩ :: evs)
    else (arr, rng, [])

/-- `RGSS_Scripts.rename` (extension.ts:240-333).  The `overwrite` option is
accepted but never read.  Renames across two distinct archive paths are
rejected with `NoPermissions` (line 252) before any entry is touched.  The
deferred `events` array (lines 264, 289-294, 313-316) is fired after the
flush, so those events trail the immediately-fired ones. -/
def renameOp (oldP newP : Str) (overwrite : Bool) (rng : List Nat) (e : Entry) : OpResult :=
  match parse oldP with
  | none => ⟨some .noPermissions, e, []⟩
  | some oi =>
    if oi.index < 0 then ⟨some .noPermissions, e, []⟩
    else
      match parse newP with
      | none => ⟨some .noPermissions, e, []⟩
      | some ni =>
        if ni.index < 0 then ⟨some .noPermissions, e, []⟩
        else if oi.file ≠ ni.file then ⟨some .noPermissions, e, []⟩
        else
          let f := oi.file
          let i := oi.index.toNat
          match e.contents.get? i with
          | none => ⟨some .notFound, e, []⟩
          | some exist =>
            if exist.title ≠ oi.title then ⟨some .notFound, e, []⟩
            else if oi.index = ni.index then
              -- '001_Title.rb' -> '001_Title2.rb' (extension.ts:267-277)
              let ev1 : Event := ⟨.deleted, (uriOf f e.contents i).getD []⟩
              let arr' := e.contents.set i ⟨exist.magic, ni.title, exist.code⟩
              let ev2 : Event := ⟨.created, (uriOf f arr' i).getD []⟩
              ⟨none, ⟨arr', arr'.length⟩, [ev1, ev2]⟩
            else
              -- '001_Title.rb' -> '002_Title2.rb' (extension.ts:279-325)
              let j := ni.index.toNat
              let code := exist.code
              let ev1 : Event := ⟨.deleted, (uriOf f e.contents i).getD []⟩
              let arr1 := e.contents.set i ⟨exist.magic, [], []⟩
              let deferred1 : List Event :=
                if i < arr1.length then [⟨.created, (uriOf f arr1 i).getD []⟩] else []
              match renamePadLoop f j (j + 1) arr1 rng with
              | (arr2, rng2, evPad) =>
                if j = arr2.length then
                  let item : Item := ⟨rng2.headD 0, ni.title, code⟩
                  let arr3 := arr2 ++ [item]
                  let ev2 : Event := ⟨.created, (uriOf f arr3 j).getD []⟩
                  ⟨none, ⟨arr3, arr3.length⟩, ev1 :: evPad ++ [ev2] ++ deferred1⟩
                else
                  match arr2.get? j with
                  | none => ⟨some .typeErr, ⟨arr2, e.size⟩, ev1 :: evPad⟩
                  | some dest =>
                    let deferred2 : List Event := [⟨.deleted, (uriOf f arr2 j).getD []⟩]
                    let item : Item := ⟨dest.magic, ni.title, code⟩
                    let arr3 := arr2.set j item
                    let ev2 : Event := ⟨.created, (uriOf f arr3 j).getD []⟩
                    ⟨none, ⟨arr3, arr3.length⟩, ev1 :: evPad ++ [ev2] ++ deferred1 ++ deferred2⟩

/-- `RGSS_Scripts.delete` (extension.ts:336-360): unparsable path or root
sentinel throws `NoPermissions`; a missing slot returns silently
("Already deleted", line 344) without flushing; a stored title differing from
the path's title throws `FileNotFound`; the last slot is popped, any other
slot is cleared in place; then the entry is flushed.  No change event is
fired (the code refreshes the files explorer instead). -/
def deleteOp (p : Str) (e : Entry) : OpResult :=
  match parse p with
  | none => ⟨some .noPermissions, e, []⟩
  | some info =>
    if info.index < 0 then ⟨some .noPermissions, e, []⟩
    else
      let k := info.index.toNat
      match e.contents.get? k with
      | none => ⟨none, e, []⟩
      | some exist =>
        if exist.title ≠ info.title then ⟨some .notFound, e, []⟩
        else
          let arr' :=
            if k = e.contents.length - 1 then e.contents.dropLast
            else e.contents.set k ⟨exist.magic, [], []⟩
          ⟨none, ⟨arr', arr'.length⟩, []⟩

/-- A mutation against one open archive: `writeFile` or `delete`. -/
inductive FsOp
  | write (path : Str) (content : Str) (create overwrite : Bool) (rng : List Nat)
  | del (path : Str)

/-- Apply one mutation, keeping the entry it leaves in the cache. -/
def applyOp (e : Entry) : FsOp → Entry
  | .write p c cr ov rng => (writeFileOp p c cr ov rng e).entry
  | .del p => (deleteOp p e).entry

/-- Run a sequence of writes/deletes. -/
def runOps (e : Entry) (ops : List FsOp) : Entry := ops.foldl applyOp e

/-- Spec-side measure for claim C1: the record count "measured from the end
inward", i.e. the length after removing the trailing run of placeholder
records. -/
def trimmedLen (l : List Item) : Nat := (l.reverse.dropWhile isEmptyItem).length

/-- The inner loop of `RGSS_Scripts._indices` (extension.ts:473-481):
`index = line.indexOf(text); while (index >= 0) { push; index =
line.indexOf(text, index + 1) }`.  The scan restarts at `index + 1`, so
overlapping occurrences are all collected.  The structural fuel
`line.length + 1` covers every iteration when `text` is nonempty; the JS loop
does not terminate when `text` is empty. -/
def indicesAux (line text : Str) : Nat → Nat → List Nat
  | 0, _ => []
  | fuel + 1, start =>
    match jsIndexOfFrom line text start with
    | none => []
    | some k => k :: indicesAux line text fuel (k + 1)

/-- `RGSS_Scripts._indices` (extension.ts:473-481). -/
def indices (line text : Str) : List Nat := indicesAux line text (line.length + 1) 0

/-- `code.split(/\r\n|\n|\r/g)` (extension.ts:489). -/
def splitLinesAux : Str → Str → List Str
  | [], acc => [acc.reverse]
  | '\r' :: '\n' :: rest, acc => acc.reverse :: splitLinesAux rest []
  | '\r' :: rest, acc => acc.reverse :: splitLinesAux rest []
  | '\n' :: rest, acc => acc.reverse :: splitLinesAux rest []
  | c :: rest, acc => splitLinesAux rest (c :: acc)

/-- Split a decoded payload into lines. -/
def splitLines (s : Str) : List Str := splitLinesAux s []

/-- The per-record line cache built by `rg` (extension.ts:485-490). -/
def cacheOf (contents : List Item) : List (List Str) := contents.map fun it => splitLines it.code

/-- One element of `collect` in `rg` (extension.ts:486): record index,
0-based line number, and the 0-based columns of every occurrence in that
line. -/
structure Hit where
  index : Nat
  line_ : Nat
  columns_ : List Nat
deriving DecidableEq, Repr

/-- The double loop of `rg` that fills `collect` (extension.ts:487-499),
processing records from index `i` upward. -/
def collectAux (text : Str) : Nat → List (List Str) → List Hit
  | _, [] => []
  | i, lines :: rest =>
    (lines.enum.filterMap fun jl =>
      let cols := indices jl.2 text
      if cols.isEmpty then none else some ⟨i, jl.1, cols⟩)
    ++ collectAux text (i + 1) rest

/-- The finished `collect` array of `rg`. -/
def collectOf (contents : List Item) (text : Str) : List Hit :=
  collectAux text 0 (cacheOf contents)

/-- The tag of one output line of `rg` (`GrepLine.type`, extension.ts:576);
`matched` stands for the source's `'match'`. -/
inductive GrepType
  | title
  | context
  | matched
  | message
deriving DecidableEq, Repr

/-- One output line of `rg` (interface `GrepLine`, extension.ts:575-579). -/
structure GrepLine where
  gtype : GrepType
  text : Str
  indices : Option (List (Nat × Nat))
deriving DecidableEq, Repr

/-- `render_line` (extension.ts:515-517) for a numeric line number `lineNo`
(0-based; displayed 1-based). -/
def renderLine (width : Nat) (lineNo : Nat) (text : Str) (isMatch : Bool) : Str :=
  padStartWith width ' ' (natToStr (lineNo + 1)) ++ (if isMatch then ':' else ' ') :: ' ' :: text

/-- `render_line('..', '', false)` (extension.ts:545). -/
def renderDots (width : Nat) : Str :=
  padStartWith width ' ' (strL "..") ++ [' ', ' ']

/-- The mutable state of `rg`'s rendering pass: the `result` array and the
`last_index` / `last_line_` cursors (extension.ts:501, 518-519). -/
structure RState where
  res : List GrepLine
  lastIndex : Int
  lastLine : Int
deriving DecidableEq, Repr

/-- Integers in `[a, b)`. -/
def intRange (a b : Int) : List Int :=
  (List.range (b - a).toNat).map fun k => a + k

/-- Line `j` of record `i` in the cache. -/
def lineAt (cache : List (List Str)) (i j : Nat) : Str := (cache.getD i []).getD j []

/-- Trailing-context flush used both on record change (extension.ts:523-530)
and after the main loop (extension.ts:558-564): up to 2 lines after the last
match of the previous record. -/
def flushTrailing (cache : List (List Str)) (width : Nat) (st : RState) : List GrepLine :=
  let lastLines := cache.getD st.lastIndex.toNat []
  (intRange (st.lastLine + 1) (min (lastLines.length : Int) (st.lastLine + 3))).map fun ln =>
    ⟨.context, renderLine width ln.toNat (lineAt cache st.lastIndex.toNat ln.toNat) false, none⟩

/-- The body of `rg`'s main rendering loop for one element of `collect`
(extension.ts:520-557). -/
def rgStep (contents : List Item) (cache : List (List Str)) (tlen width : Nat) (st : RState) (h : Hit) : RState :=
  let st1 :=
    if (h.index : Int) ≠ st.lastIndex then
      let st0 :=
        if st.lastLine ≥ 0 then
          { st with res := st.res ++ flushTrailing cache width st ++ [⟨.message, [], none⟩], lastLine := -1 }
        else st
      let titleText := name_ h.index (((contents.get? h.index).map Item.title).getD []) ++ [':']
      { st0 with lastIndex := (h.index : Int), res := st0.res ++ [⟨.title, titleText, none⟩] }
    else st
  -- extension.ts:536-541 (context continuation; `last_line_` deliberately not updated)
  let st2 :=
    if st1.lastLine ≥ 0 then
      let hi := min (h.line_ : Int) (min (st1.lastLine + 3) (max 0 ((h.line_ : Int) - 2)))
      let ctx := (intRange (st1.lastLine + 1) hi).map fun ln =>
        GrepLine.mk .context (renderLine width ln.toNat (lineAt cache h.index ln.toNat) false) none
      { st1 with res := st1.res ++ ctx }
    else st1
  -- extension.ts:542-550 (up to 2 lines of context before the match, with ellipsis)
  let st3 := (intRange (max 0 ((h.line_ : Int) - 2)) (h.line_ : Int)).foldl
    (fun s ln =>
      if s.lastLine < ln then
        let dots : List GrepLine :=
          if s.lastLine ≥ 0 ∧ s.lastLine + 1 < ln then [⟨.context, renderDots width, none⟩] else []
        { s with
          lastLine := ln,
          res := s.res ++ dots ++ [⟨.context, renderLine width ln.toNat (lineAt cache h.index ln.toNat) false, none⟩] }
      else s)
    st2
  -- extension.ts:551-556 (the match line itself)
  { st3 with
    res := st3.res ++ [⟨.matched, renderLine width h.line_ (lineAt cache h.index h.line_) true,
      some (h.columns_.map fun c => (c, c + tlen))⟩],
    lastLine := (h.line_ : Int) }

/-- The `"N match(es) across M file(s)"` summary text (extension.ts:566-570),
with `new Set(collect.map(e => e.index)).size` modelled as the number of
distinct indices. -/
def summaryText (m f : Nat) : Str :=
  (if m ≤ 1 then natToStr m ++ strL " match" else natToStr m ++ strL " matches")
  ++ strL " across "
  ++ (if f ≤ 1 then natToStr f ++ strL " file" else natToStr f ++ strL " files")

/-- `RGSS_Scripts.rg` (extension.ts:483-572) on an already-open entry. -/
def rg (contents : List Item) (text : Str) : List GrepLine :=
  let cache := cacheOf contents
  let collect := collectOf contents text
  let header : List GrepLine :=
    [⟨.message, strL "Searching " ++ natToStr contents.length ++ strL " files for \"" ++ text ++ ['"'], none⟩,
     ⟨.message, [], none⟩]
  if collect.isEmpty then header ++ [⟨.message, strL "0 matches", none⟩]
  else
    let maxLine : Int := collect.foldl (fun m h => max m (h.line_ : Int)) (-1)
    let width := (intToStr maxLine).length + 2
    let stF := collect.foldl (rgStep contents cache text.length width) ⟨header, -1, -1⟩
    let body := if stF.lastLine ≥ 0 then stF.res ++ flushTrailing cache width stF else stF.res
    let fcount := ((collect.map Hit.index).dedup).length
    body ++ [⟨.message, [], none⟩, ⟨.message, summaryText collect.length fcount, none⟩]

/-- Spec-side predicate: `text` occurs (as a literal substring) somewhere in
`line`. -/
def occursIn (text line : Str) : Bool :=
  (List.range (line.length + 1)).any fun k => isPfx text (line.drop k)

/-- Spec-side count for the amended claim C5: the number of lines, across all
records, containing at least one occurrence of the needle. -/
def specMatchLines (contents : List Item) (text : Str) : Nat :=
  (contents.map fun it => (splitLines it.code).countP fun l => occursIn text l).sum

/-- Spec-side count: the number of records containing at least one matching
line. -/
def specFiles (contents : List Item) (text : Str) : Nat :=
  contents.countP fun it => (splitLines it.code).any fun l => occursIn text l

/-- Spec-side count for claim C5 as stated: non-overlapping left-to-right
occurrences of `text` in `s` (advance past the whole needle after a match). -/
def nonOverlapAux (text : Str) : Nat → Str → Nat
  | 0, _ => 0
  | _ + 1, [] => 0
  | fuel + 1, c :: rest =>
    if isPfx text (c :: rest) then 1 + nonOverlapAux text fuel ((c :: rest).drop text.length)
    else nonOverlapAux text fuel rest

/-- Non-overlapping occurrence count of `text` in `s`. -/
def nonOverlapCount (text s : Str) : Nat := nonOverlapAux text s.length s

/-- Total non-overlapping occurrences of the needle across all records. -/
def specNonOverlapTotal (contents : List Item) (text : Str) : Nat :=
  (contents.map fun it => nonOverlapCount text it.code).sum

/-! ### Lemmas about the string primitives -/

theorem isPfx_append_of_isPfx {pat l : Str} (h : isPfx pat l = true) (ext : Str) :
    isPfx pat (l ++ ext) = true := by
  induction pat generalizing l with
  | nil => rfl
  | cons a as ih =>
    cases l with
    | nil => simp [isPfx] at h
    | cons b bs =>
      simp only [isPfx, Bool.and_eq_true, decide_eq_true_eq] at h
      simp only [List.cons_append, isPfx, Bool.and_eq_true, decide_eq_true_eq]
      exact ⟨h.1, ih h.2⟩

theorem isPfx_append_left {pat l : Str} (h : pat.length ≤ l.length) (ext : Str) :
    isPfx pat (l ++ ext) = isPfx pat l := by
  induction pat generalizing l with
  | nil => rfl
  | cons a as ih =>
    cases l with
    | nil => simp at h
    | cons b bs =>
      simp only [List.length_cons, Nat.succ_le_succ_iff] at h
      simp only [List.cons_append, isPfx, List.append_eq]
      rw [ih h]

theorem isPfx_self_append (pat ext : Str) : isPfx pat (pat ++ ext) = true := by
  induction pat with
  | nil => rfl
  | cons a as ih => simp [isPfx, List.append_eq, ih]

theorem isPfx_length_le {pat l : Str} (h : isPfx pat l = true) : pat.length ≤ l.length := by
  induction pat generalizing l with
  | nil => simp
  | cons a as ih =>
    cases l with
    | nil => simp [isPfx] at h
    | cons b bs =>
      simp only [isPfx, Bool.and_eq_true] at h
      simpa using ih h.2

theorem isPfx_eq_of_length_eq {pat l : Str} (h : isPfx pat l = true)
    (hl : pat.length = l.length) : pat = l := by
  induction pat generalizing l with
  | nil => cases l with | nil => rfl | cons b bs => simp at hl
  | cons a as ih =>
    cases l with
    | nil => simp [isPfx] at h
    | cons b bs =>
      simp only [isPfx, Bool.and_eq_true, decide_eq_true_eq] at h
      simp only [List.length_cons, Nat.succ_inj] at hl
      rw [h.1, ih h.2 hl]

theorem firstIdx_eq_some_iff (pat s : Str) (k : Nat) :
    firstIdx pat s = some k ↔
      isPfx pat (s.drop k) = true ∧ ∀ j, j < k → isPfx pat (s.drop j) = false := by
  induction s generalizing k with
  | nil =>
    cases hp : isPfx pat [] with
    | true =>
      simp only [firstIdx, hp, if_true]
      constructor
      · rintro h
        injection h with h
        subst h
        exact ⟨hp, fun j hj => absurd hj (Nat.not_lt_zero j)⟩
      · rintro ⟨h1, hall⟩
        rcases Nat.eq_zero_or_pos k with rfl | hk
        · rfl
        · have h0 := hall 0 hk
          simp only [List.drop_nil] at h0
          rw [hp] at h0
          exact Bool.noConfusion h0
    | false =>
      simp only [firstIdx, hp, Bool.false_eq_true, if_false]
      constructor
      · rintro ⟨⟩
      · rintro ⟨h1, -⟩
        simp only [List.drop_nil] at h1
        rw [hp] at h1
        exact Bool.noConfusion h1
  | cons c rest ih =>
    cases hp : isPfx pat (c :: rest) with
    | true =>
      simp only [firstIdx, hp, if_true]
      constructor
      · rintro h
        injection h with h
        subst h
        exact ⟨by simpa using hp, fun j hj => absurd hj (Nat.not_lt_zero j)⟩
      · rintro ⟨h1, hall⟩
        rcases Nat.eq_zero_or_pos k with rfl | hk
        · rfl
        · have h0 := hall 0 hk
          simp only [List.drop_zero] at h0
          rw [hp] at h0
          exact Bool.noConfusion h0
    | false =>
      simp only [firstIdx, hp, Bool.false_eq_true, if_false]
      constructor
      · intro h
        rcases Option.map_eq_some'.mp h with ⟨k', hk', rfl⟩
        rcases (ih k').mp hk' with ⟨h1, h2⟩
        refine ⟨by simpa using h1, ?_⟩
        intro j hj
        cases j with
        | zero => simpa using hp
        | succ j' =>
          have := h2 j' (by omega)
          simpa using this
      · rintro ⟨h1, h2⟩
        cases k with
        | zero =>
          simp only [List.drop_zero] at h1
          rw [hp] at h1
          exact Bool.noConfusion h1
        | succ k' =>
          have hr : firstIdx pat rest = some k' := by
            refine (ih k').mpr ⟨by simpa using h1, ?_⟩
            intro j hj
            have := h2 (j + 1) (by omega)
            simpa using this
          rw [hr]
          rfl

theorem firstIdx_append_of_exact {pat s : Str} {k : Nat}
    (h : firstIdx pat s = some k) (hlen : s.length = k + pat.length) (ext : Str) :
    firstIdx pat (s ++ ext) = some k := by
  rcases (firstIdx_eq_some_iff pat s k).mp h with ⟨h1, h2⟩
  have hk : k ≤ s.length := by omega
  refine (firstIdx_eq_some_iff pat (s ++ ext) k).mpr ⟨?_, ?_⟩
  · rw [List.drop_append_of_le_length hk]
    exact isPfx_append_of_isPfx h1 ext
  · intro j hj
    rw [List.drop_append_of_le_length (by omega)]
    rw [isPfx_append_left (by simp only [List.length_drop]; omega) ext]
    exact h2 j hj

theorem firstIdx_append_not_mem {c : Char} {l1 : Str} (h : c ∉ l1) (l2 : Str) :
    firstIdx [c] (l1 ++ c :: l2) = some l1.length := by
  induction l1 with
  | nil => simp [firstIdx, isPfx]
  | cons a as ih =>
    have hac : ¬(c = a) := fun hh => h (by simp [hh])
    have has : c ∉ as := fun hh => h (by simp [hh])
    simp [List.cons_append, firstIdx, isPfx, hac, List.append_eq, ih has]

theorem natToStrAux_irrel : ∀ f1 f2 n : Nat, n < f1 → n < f2 →
    natToStrAux f1 n = natToStrAux f2 n := by
  intro f1
  induction f1 with
  | zero => intro f2 n h; omega
  | succ f1' ih =>
    intro f2 n h1 h2
    cases f2 with
    | zero => omega
    | succ f2' =>
      simp only [natToStrAux]
      by_cases hn : n < 10
      · simp [hn]
      · have hd : n / 10 < n := Nat.div_lt_self (by omega) (by omega)
        simp only [hn, if_false]
        rw [ih f2' (n / 10) (by omega) (by omega)]

theorem natToStr_unfold (n : Nat) :
    natToStr n = if n < 10 then [dchar n] else natToStr (n / 10) ++ [dchar (n % 10)] := by
  show natToStrAux (n + 1) n = _
  by_cases hn : n < 10
  · simp [natToStrAux, hn]
  · have hd : n / 10 < n := Nat.div_lt_self (by omega) (by omega)
    simp only [natToStrAux, hn, if_false]
    rw [natToStrAux_irrel n (n / 10 + 1) (n / 10) (by omega) (by omega)]
    rfl

theorem natToStr_ne_nil (n : Nat) : natToStr n ≠ [] := by
  rw [natToStr_unfold]
  by_cases hn : n < 10 <;> simp [hn]

theorem mem_natToStr_digit {n : Nat} {c : Char} (h : c ∈ natToStr n) :
    ∃ d, d < 10 ∧ c = dchar d := by
  induction n using Nat.strong_induction_on with
  | _ n ih =>
    rw [natToStr_unfold] at h
    by_cases hn : n < 10
    · simp only [hn, if_true, List.mem_singleton] at h
      exact ⟨n, hn, h⟩
    · simp only [hn, if_false, List.mem_append, List.mem_singleton] at h
      rcases h with h | h
      · exact ih (n / 10) (Nat.div_lt_self (by omega) (by omega)) h
      · exact ⟨n % 10, Nat.mod_lt n (by omega), h⟩

theorem digVal_dchar {d : Nat} (h : d < 10) : digVal (dchar d) = some d := by
  interval_cases d <;> decide

theorem mem_natToStr_digVal {n : Nat} {c : Char} (h : c ∈ natToStr n) :
    ∃ d, d < 10 ∧ digVal c = some d := by
  rcases mem_natToStr_digit h with ⟨d, hd, rfl⟩
  exact ⟨d, hd, digVal_dchar hd⟩

theorem digit_toNat_bounds {c : Char} {d : Nat} (h : digVal c = some d) :
    48 ≤ c.toNat ∧ c.toNat ≤ 57 ∧ d = c.toNat - 48 := by
  by_cases hb : 48 ≤ c.toNat ∧ c.toNat ≤ 57
  · simp only [digVal, hb, and_true, if_pos, Option.some_inj] at h
    exact ⟨hb.1, hb.2, h.symm⟩
  · simp [digVal, hb] at h

/-- The digit-fold value of a digit string. -/
def digsVal (l : Str) : Nat := l.foldl (fun a c => a * 10 + ((digVal c).getD 0)) 0

theorem parseDigitsAux_all_digits {l : Str} (h : ∀ c ∈ l, (digVal c).isSome) (acc : Nat) :
    parseDigitsAux digVal 10 l acc = l.foldl (fun a c => a * 10 + ((digVal c).getD 0)) acc := by
  induction l generalizing acc with
  | nil => rfl
  | cons c rest ih =>
    have hc := h c (by simp)
    rcases Option.isSome_iff_exists.mp hc with ⟨d, hd⟩
    simp only [parseDigitsAux, hd, List.foldl_cons, Option.getD_some]
    exact ih (fun x hx => h x (by simp [hx])) _

theorem parseDigitsPfx_all_digits {l : Str} (hne : l ≠ []) (h : ∀ c ∈ l, (digVal c).isSome) :
    parseDigitsPfx digVal 10 l = some (digsVal l) := by
  cases l with
  | nil => exact absurd rfl hne
  | cons c rest =>
    have hc := h c (by simp)
    rcases Option.isSome_iff_exists.mp hc with ⟨d, hd⟩
    simp only [parseDigitsPfx, hd]
    rw [parseDigitsAux_all_digits (fun x hx => h x (by simp [hx]))]
    simp [digsVal, hd]

theorem digsVal_append (l1 l2 : Str) :
    (l1 ++ l2).foldl (fun a c => a * 10 + ((digVal c).getD 0)) 0
      = l2.foldl (fun a c => a * 10 + ((digVal c).getD 0)) (digsVal l1) := by
  simp [digsVal, List.foldl_append]

theorem digsVal_natToStr (n : Nat) : digsVal (natToStr n) = n := by
  induction n using Nat.strong_induction_on with
  | _ n ih =>
    rw [natToStr_unfold]
    by_cases hn : n < 10
    · simp [hn, digsVal, digVal_dchar hn]
    · have hd : n / 10 < n := Nat.div_lt_self (by omega) (by omega)
      simp only [hn, if_false, digsVal, digsVal_append]
      have hv := ih (n / 10) hd
      simp only [digsVal] at hv
      rw [hv, List.foldl_cons, List.foldl_nil, digVal_dchar (Nat.mod_lt n (by omega)),
        Option.getD_some]
      omega

theorem digsVal_zeros_append (z : Nat) (l : Str) :
    digsVal (List.replicate z '0' ++ l) = digsVal l := by
  induction z with
  | zero => simp
  | succ z' ih =>
    have h0 : digVal '0' = some 0 := by decide
    simpa [digsVal, List.replicate_succ, h0] using ih

theorem digVal_isSome_not_special {c : Char} (h : (digVal c).isSome) :
    isWsChar c = false ∧ c ≠ '-' ∧ c ≠ '+' ∧ c ≠ 'x' ∧ c ≠ 'X' := by
  rcases Option.isSome_iff_exists.mp h with ⟨d, hd⟩
  rcases digit_toNat_bounds hd with ⟨h1, h2, -⟩
  refine ⟨?_, ?_, ?_, ?_, ?_⟩
  · simp only [isWsChar, Bool.or_eq_false_iff, decide_eq_false_iff_not]
    refine ⟨⟨⟨fun hh => ?_, fun hh => ?_⟩, fun hh => ?_⟩, fun hh => ?_⟩ <;>
      (subst hh; revert h1 h2; decide)
  · intro hh; subst hh; revert h1 h2; decide
  · intro hh; subst hh; revert h1 h2; decide
  · intro hh; subst hh; revert h1 h2; decide
  · intro hh; subst hh; revert h1 h2; decide

theorem jsParseInt_all_digits {l : Str} (hne : l ≠ []) (h : ∀ c ∈ l, (digVal c).isSome) :
    jsParseInt l = some ((digsVal l : Nat) : Int) := by
  cases l with
  | nil => exact absurd rfl hne
  | cons c rest =>
    have hc := h c (by simp)
    rcases digVal_isSome_not_special hc with ⟨hws, hminus, hplus, -, -⟩
    have hdw : (c :: rest).dropWhile isWsChar = c :: rest := by
      rw [List.dropWhile_cons_of_neg]
      simp [hws]
    simp only [jsParseInt, hdw, hminus, hplus, if_false]
    cases rest with
    | nil =>
      simp only [parseBody]
      rw [parseDigitsPfx_all_digits (by simp) h]
      rfl
    | cons c2 r2 =>
      have hc2 := h c2 (by simp)
      rcases digVal_isSome_not_special hc2 with ⟨-, -, -, hx, hX⟩
      have hno : ¬(c = '0' ∧ (c2 = 'x' ∨ c2 = 'X')) := by
        rintro ⟨-, hxx | hxx⟩
        · exact hx hxx
        · exact hX hxx
      simp only [parseBody, hno, if_false]
      rw [parseDigitsPfx_all_digits (by simp) h]
      rfl

theorem padStart3_digits {n : Nat} {c : Char} (h : c ∈ padStart3 (natToStr n)) :
    (digVal c).isSome := by
  simp only [padStart3, List.mem_append, List.mem_replicate] at h
  rcases h with ⟨-, rfl⟩ | h
  · decide
  · rcases mem_natToStr_digVal h with ⟨d, -, hd⟩
    simp [hd]

theorem padStart3_ne_nil (n : Nat) : padStart3 (natToStr n) ≠ [] := by
  simp only [padStart3, ← List.length_pos, List.length_append]
  have h1 := natToStr_ne_nil n
  have h2 : (natToStr n).length ≠ 0 := fun hh => h1 (List.length_eq_zero.mp hh)
  omega

theorem jsParseInt_padStart3 (n : Nat) :
    jsParseInt (padStart3 (natToStr n)) = some ((n : Nat) : Int) := by
  rw [jsParseInt_all_digits (padStart3_ne_nil n) fun c hc => padStart3_digits hc]
  congr 1
  simp only [padStart3]
  rw [digsVal_zeros_append, digsVal_natToStr]

theorem dchar_ne_underscore_slash {d : Nat} (h : d < 10) :
    dchar d ≠ '_' ∧ dchar d ≠ '/' := by
  interval_cases d <;> exact ⟨by decide, by decide⟩

theorem padStart3_not_mem {n : Nat} {c : Char} (hc : c = '_' ∨ c = '/') :
    c ∉ padStart3 (natToStr n) := by
  intro h
  simp only [padStart3, List.mem_append, List.mem_replicate] at h
  rcases h with ⟨-, rfl⟩ | h
  · rcases hc with hh | hh <;> exact absurd hh (by decide)
  · rcases mem_natToStr_digit h with ⟨d, hd, rfl⟩
    rcases dchar_ne_underscore_slash hd with ⟨h1, h2⟩
    rcases hc with hh | hh
    · exact h1 hh
    · exact h2 hh

/-! ### Claim C2: `parse` is a left inverse of `format` on canonical paths -/

theorem parse_root_elim {file : Str} (h : parse file = some ⟨file, -1, []⟩) :
    ∃ k, firstIdx marker file = some k ∧ file.length = k + 16 := by
  unfold parse at h
  cases hf : firstIdx marker file with
  | none => rw [hf] at h; exact absurd h (by simp)
  | some idx =>
    rw [hf] at h
    dsimp only at h
    by_cases hlen : file.length = idx + 16
    · exact ⟨idx, rfl, hlen⟩
    · exfalso
      have hidx : idx + 16 ≤ file.length := by
        rcases (firstIdx_eq_some_iff _ _ _).mp hf with ⟨h1, -⟩
        have h2 := isPfx_length_le h1
        simp only [List.length_drop] at h2
        have hm : marker.length = 16 := by decide
        omega
      rw [if_neg hlen] at h
      split at h
      · exact Option.noConfusion h
      · split at h
        · exact Option.noConfusion h
        · split at h
          · exact Option.noConfusion h
          · split at h
            · exact Option.noConfusion h
            · injection h with h'
              have hfile : file.take (idx + 16) = file := congrArg ParsedPath.file h'
              have hfl := congrArg List.length hfile
              rw [List.length_take] at hfl
              omega

/-- C2: for every non-negative index `i` and every title `t` containing no
path separator, parsing the canonical generated path
`file ++ "/" ++ name_(i, t)` under an archive path `file` (a path that parses
as the archive root) returns exactly that archive path, the index `i` and the
title `t`. -/
theorem c2_parse_format_roundtrip (file : Str) (i : Nat) (t : Str)
    (hroot : parse file = some ⟨file, -1, []⟩) (ht : '/' ∉ t) :
    parse (file ++ '/' :: name_ i t) = some ⟨file, (i : Int), t⟩ := by
  rcases parse_root_elim hroot with ⟨k, hf, hlen⟩
  have hm16 : marker.length = 16 := by decide
  have hmark : firstIdx marker (file ++ '/' :: name_ i t) = some k :=
    firstIdx_append_of_exact hf (by omega) _
  have hplen : (file ++ '/' :: name_ i t).length ≠ k + 16 := by
    simp only [List.length_append, List.length_cons]
    omega
  have hget : (file ++ '/' :: name_ i t).get? (k + 16) = some '/' := by
    rw [List.get?_append_right (by omega)]
    simp [show k + 16 - file.length = 0 by omega]
  have htake : (file ++ '/' :: name_ i t).take (k + 16) = file := List.take_left' (by omega)
  have hdrop : (file ++ '/' :: name_ i t).drop (k + 17) = name_ i t := by
    rw [List.append_cons, List.drop_left' (by simp only [List.length_append, List.length_cons, List.length_nil]; omega)]
  have hnm : name_ i t = padStart3 (natToStr i) ++ '_' :: (t ++ strL ".rb") := rfl
  have hsep : firstIdx ['_'] (name_ i t) = some (padStart3 (natToStr i)).length := by
    rw [hnm]
    exact firstIdx_append_not_mem (padStart3_not_mem (Or.inl rfl)) _
  have htksep : (name_ i t).take (padStart3 (natToStr i)).length = padStart3 (natToStr i) := by
    rw [hnm]
    exact List.take_left' rfl
  have hdropsep : (name_ i t).drop ((padStart3 (natToStr i)).length + 1) = t ++ strL ".rb" := by
    rw [hnm, List.append_cons, List.drop_left' (by simp)]
  have hcont : (t ++ strL ".rb").contains '/' = false := by
    have hrb : ('/' : Char) ∉ strL ".rb" := by decide
    simp [List.contains, List.elem_eq_mem, List.mem_append, ht, hrb]
  have hends : jsEndsWith (t ++ strL ".rb") (strL ".rb") = true := by
    unfold jsEndsWith
    rw [List.reverse_append]
    exact isPfx_self_append _ _
  have htkt : (t ++ strL ".rb").take ((t ++ strL ".rb").length - 3) = t := by
    have h3 : (t ++ strL ".rb").length - 3 = t.length := by
      simp [strL]
    rw [h3]
    exact List.take_left' rfl
  unfold parse
  rw [hmark]
  simp only [if_neg hplen, hget, ne_eq, not_true_eq_false, if_false, htake, hdrop, hsep,
    htksep, jsParseInt_padStart3, hdropsep, hcont, Bool.false_eq_true, if_false, hends,
    if_true, htkt]

/-! ### Operation-level helper lemmas -/

theorem padLoop_of_le {f : Str} {k : Nat} {arr : List Item} {rng : List Nat} (fuel : Nat)
    (h : k ≤ arr.length) : padLoop f k fuel arr rng = (arr, rng, [], none) := by
  cases fuel with
  | zero => rfl
  | succ fuel' => simp [padLoop, show ¬(arr.length < k) from by omega]

theorem padLoop_of_gt {f : Str} {k : Nat} {arr : List Item} {rng : List Nat} (fuel : Nat)
    (h : arr.length < k) :
    padLoop f k (fuel + 1) arr rng
      = (arr ++ [emptyItem (rng.headD 0)], rng.tail, [], some .typeErr) := by
  have hnone : uriOf f (arr ++ [emptyItem (rng.headD 0)]) k = none := by
    simp only [uriOf]
    rw [List.get?_eq_none.mpr (by simp only [List.length_append, List.length_singleton]; omega)]
    rfl
  simp only [padLoop, if_pos h]
  rw [hnone]

theorem renamePadLoop_of_le {f : Str} {j : Nat} {arr : List Item} {rng : List Nat} (fuel : Nat)
    (h : j ≤ arr.length) : renamePadLoop f j fuel arr rng = (arr, rng, []) := by
  cases fuel with
  | zero => rfl
  | succ fuel' => simp [renamePadLoop, show ¬(arr.length < j) from by omega]

theorem get?_set_self {α : Type} (l : List α) (k : Nat) (a : α) (h : k < l.length) :
    (l.set k a).get? k = some a := by
  simp [List.get?_eq_getElem?, List.getElem?_set_self, h]

theorem get?_set_ne {α : Type} (l : List α) (k j : Nat) (a : α) (h : k ≠ j) :
    (l.set k a).get? j = l.get? j := by
  simp [List.get?_eq_getElem?, List.getElem?_set_ne h]

theorem readFileOp_of_found {p : Str} {info : ParsedPath} {it : Item} (arr : List Item) (sz : Nat)
    (hp : parse p = some info) (hi : ¬info.index < 0)
    (hget : arr.get? info.index.toNat = some it) (htitle : it.title = info.title) :
    readFileOp p ⟨arr, sz⟩ = .ok it.code := by
  have hstat : statOp p ⟨arr, sz⟩ = .ok ⟨.file, it.code.length⟩ := by
    unfold statOp
    rw [hp]
    try dsimp only
    rw [if_neg hi, hget]
    try dsimp only
    rw [if_neg (by simp [htitle])]
  unfold readFileOp
  rw [hstat]
  try dsimp only
  rw [if_neg (by simp), hp]
  try dsimp only
  rw [hget]

/-! ### Claim C10: write-then-read round trip -/

/-- C10: for every path, if `writeFile` at that path succeeds then an
immediately following `readFile` of the same path succeeds and returns exactly
the written content (the write stores the path's title, so the subsequent
index-and-title lookup matches). -/
theorem c10_write_read_roundtrip (p content : Str) (cr ov : Bool) (rng : List Nat) (e : Entry)
    (h : (writeFileOp p content cr ov rng e).error = none) :
    readFileOp p (writeFileOp p content cr ov rng e).entry = .ok content := by
  cases hp : parse p with
  | none =>
    unfold writeFileOp at h
    rw [hp] at h
    simp at h
  | some info =>
    unfold writeFileOp at h ⊢
    rw [hp] at h ⊢
    dsimp only at h ⊢
    by_cases hneg : info.index < 0
    · rw [if_pos hneg] at h; exact absurd h (by simp)
    rw [if_neg hneg] at h ⊢
    by_cases hg1 : cr = false ∧ e.contents.get? info.index.toNat = none
    · rw [if_pos hg1] at h; exact absurd h (by simp)
    rw [if_neg hg1] at h ⊢
    by_cases hg2 : cr = true ∧ ov = false ∧ e.contents.get? info.index.toNat ≠ none
    · rw [if_pos hg2] at h; exact absurd h (by simp)
    rw [if_neg hg2] at h ⊢
    by_cases hlen : info.index.toNat ≤ e.contents.length
    · rw [padLoop_of_le _ hlen] at h ⊢
      dsimp only at h ⊢
      by_cases he : info.index.toNat = e.contents.length
      · simp only [if_pos he]
        have hget : (e.contents ++ [(⟨rng.headD 0, info.title, content⟩ : Item)]).get? info.index.toNat
            = some ⟨rng.headD 0, info.title, content⟩ := by
          rw [he]
          exact List.get?_concat_length _ _
        exact readFileOp_of_found _ _ hp hneg hget rfl
      · simp only [if_neg he]
        have hget : (e.contents.set info.index.toNat ⟨rng.headD 0, info.title, content⟩).get? info.index.toNat
            = some ⟨rng.headD 0, info.title, content⟩ :=
          get?_set_self _ _ _ (by omega)
        exact readFileOp_of_found _ _ hp hneg hget rfl
    · rw [padLoop_of_gt info.index.toNat (by omega)] at h
      exact absurd h (by simp)

/-! ### Claim C3: writes beyond the current length crash -/

/-- The 1-record archive used as the C3 failing input. -/
def c3Entry : Entry := ⟨[⟨1, strL "A", strL "x"⟩], 1⟩

/-- C3: the claim says writing at index 2 of a 1-record archive appends one
placeholder (with a Created event for the appended slot) and then succeeds; in
fact `writeFile`'s placeholder loop builds its Created event with
`_uri(file, contents, info.index)` — the final target index — whose slot does
not exist yet, so after pushing one placeholder the code reads
`contents[2][1]` of `undefined` and throws a `TypeError`: no event is ever
fired and the write never succeeds. -/
theorem c3_write_beyond_crash :
    writeFileOp (strL "/r/Scripts.rvdata2/002_B.rb") (strL "y") true true [5] c3Entry
      = ⟨some .typeErr, ⟨[⟨1, strL "A", strL "x"⟩, ⟨5, [], []⟩], 1⟩, []⟩ := by
  rfl

/-! ### Claim C1: what a flush persists -/

/-- C1 (amended): after any sequence of writes/deletes followed by a flush,
the persisted record count equals the full in-memory sequence length —
including any trailing placeholder left behind by a mid-sequence delete — and
is at least the count measured from the end inward; flushing twice in a row
with no intervening mutation yields identical serialized output. -/
theorem c1_flush_counts (e : Entry) (ops : List FsOp) :
    (doFlush (runOps e ops)).size = (doFlush (runOps e ops)).contents.length
      ∧ trimmedLen (doFlush (runOps e ops)).contents ≤ (doFlush (runOps e ops)).size
      ∧ doFlush (doFlush (runOps e ops)) = doFlush (runOps e ops)
      ∧ flushData (doFlush (runOps e ops)).contents = flushData (runOps e ops).contents := by
  refine ⟨rfl, ?_, rfl, rfl⟩
  show trimmedLen (runOps e ops).contents ≤ (runOps e ops).contents.length
  unfold trimmedLen
  calc ((runOps e ops).contents.reverse.dropWhile isEmptyItem).length
      ≤ (runOps e ops).contents.reverse.length := (List.dropWhile_sublist _).length_le
    _ = (runOps e ops).contents.length := List.length_reverse _

/-- The 3-record archive used as the C1 counterexample. -/
def c1Entry : Entry := ⟨[⟨1, strL "A", strL "a"⟩, ⟨2, strL "B", strL "b"⟩, ⟨3, strL "C", strL "c"⟩], 3⟩

/-- Delete the middle record (clears it in place), then the last record
(pops it), leaving a trailing placeholder. -/
def c1Ops : List FsOp :=
  [.del (strL "/r/Scripts.rvdata2/001_B.rb"), .del (strL "/r/Scripts.rvdata2/002_C.rb")]

/-- C1 counterexample: after deleting the middle then the last of three
records and flushing, the persisted record count is 2 but the count of
non-empty records measured from the end inward is 1 — the trailing
placeholder IS persisted, so the claimed equality fails. -/
theorem c1_cex :
    (doFlush (runOps c1Entry c1Ops)).size = 2
      ∧ trimmedLen (doFlush (runOps c1Entry c1Ops)).contents = 1
      ∧ ¬((doFlush (runOps c1Entry c1Ops)).size
          = trimmedLen (doFlush (runOps c1Entry c1Ops)).contents) := by
  refine ⟨by rfl, by rfl, by decide⟩

/-! ### Claim C9: deleting the last slot -/

/-- C9 (amended): deleting the record in the last slot pops exactly that slot
— the rest of the sequence, trailing placeholders included, is kept verbatim
(no further trimming) — and flushes the shrunk sequence; no file-change event
is emitted, because `delete` never calls `_fireSoon` (it refreshes the files
explorer instead).  For a 1-record archive this leaves the persisted sequence
empty. -/
theorem c9_delete_last (e : Entry) (p f t : Str)
    (hp : parse p = some ⟨f, ((e.contents.length - 1 : Nat) : Int), t⟩)
    (hne : e.contents ≠ [])
    (hlast : e.contents.getLast?.map Item.title = some t) :
    deleteOp p e = ⟨none, ⟨e.contents.dropLast, e.contents.length - 1⟩, []⟩ := by
  unfold deleteOp
  rw [hp]
  try dsimp only
  rw [if_neg (by simp)]
  have hlen : 0 < e.contents.length := List.length_pos.mpr hne
  have htn : ((e.contents.length - 1 : Nat) : Int).toNat = e.contents.length - 1 := by omega
  rw [htn]
  cases hg : e.contents.get? (e.contents.length - 1) with
  | none =>
    exfalso
    rw [List.get?_eq_none] at hg
    omega
  | some it =>
    try dsimp only
    have hgl : e.contents.getLast? = some it := by
      rw [List.getLast?_eq_get?]
      exact hg
    rw [hgl, Option.map_some'] at hlast
    have htt : it.title = t := by injection hlast
    rw [if_neg (by simp [htt]), if_pos rfl, List.length_dropLast]

/-! ### Claim C8: lookup misses -/

/-- C8 (amended): on an open archive, `stat`, `readFile` and `rename` surface
a typed `FileNotFound` both when the parsed index has no stored slot and when
the stored slot's title differs from the path's title; `delete` surfaces
`FileNotFound` on a title mismatch, but when the slot does not exist it
silently succeeds ("Already deleted"), touching nothing and firing no event.
-/
theorem c8_lookup_miss (e : Entry) (p q : Str) (info qinfo : ParsedPath)
    (hp : parse p = some info) (hi : ¬info.index < 0)
    (hq : parse q = some qinfo) (hqi : ¬qinfo.index < 0) (hfile : info.file = qinfo.file) :
    (e.contents.get? info.index.toNat = none →
      statOp p e = .error .notFound
        ∧ readFileOp p e = .error .notFound
        ∧ (∀ ov rng, renameOp p q ov rng e = ⟨some .notFound, e, []⟩)
        ∧ deleteOp p e = ⟨none, e, []⟩)
    ∧ (∀ it, e.contents.get? info.index.toNat = some it → it.title ≠ info.title →
      statOp p e = .error .notFound
        ∧ readFileOp p e = .error .notFound
        ∧ (∀ ov rng, renameOp p q ov rng e = ⟨some .notFound, e, []⟩)
        ∧ deleteOp p e = ⟨some .notFound, e, []⟩) := by
  constructor
  · intro hmiss
    have hstat : statOp p e = .error .notFound := by
      unfold statOp
      rw [hp]
      try dsimp only
      rw [if_neg hi, hmiss]
    refine ⟨hstat, ?_, ?_, ?_⟩
    · unfold readFileOp
      rw [hstat]
    · intro ov rng
      unfold renameOp
      rw [hp]
      try dsimp only
      rw [if_neg hi, hq]
      try dsimp only
      rw [if_neg hqi, if_neg (by simp [hfile]), hmiss]
    · unfold deleteOp
      rw [hp]
      try dsimp only
      rw [if_neg hi, hmiss]
  · intro it hit hne
    have hstat : statOp p e = .error .notFound := by
      unfold statOp
      rw [hp]
      try dsimp only
      rw [if_neg hi, hit]
      try dsimp only
      rw [if_pos hne]
    refine ⟨hstat, ?_, ?_, ?_⟩
    · unfold readFileOp
      rw [hstat]
    · intro ov rng
      unfold renameOp
      rw [hp]
      try dsimp only
      rw [if_neg hi, hq]
      try dsimp only
      rw [if_neg hqi, if_neg (by simp [hfile]), hit]
      try dsimp only
      rw [if_pos hne]
    · unfold deleteOp
      rw [hp]
      try dsimp only
      rw [if_neg hi, hit]
      try dsimp only
      rw [if_pos hne]

/-! ### Claim C7: cross-archive renames -/

/-- C7 (amended): a rename whose source and destination resolve to two
distinct archive paths does NOT succeed: it is rejected up front with
`NoPermissions` (extension.ts:252), before any archive is opened, mutated or
flushed, and no event is fired. -/
theorem c7_cross_archive_rename (oldP newP : Str) (ov : Bool) (rng : List Nat) (e : Entry)
    (oi ni : ParsedPath) (ho : parse oldP = some oi) (hn : parse newP = some ni)
    (hio : ¬oi.index < 0) (hin : ¬ni.index < 0) (hfile : oi.file ≠ ni.file) :
    renameOp oldP newP ov rng e = ⟨some .noPermissions, e, []⟩ := by
  unfold renameOp
  rw [ho]
  try dsimp only
  rw [if_neg hio, hn]
  try dsimp only
  rw [if_neg hin, if_pos hfile]

/-! ### Claim C6: the overwrite flag on rename -/

/-- C6 (amended): `rename` ignores its `overwrite` option entirely.  A rename
within one archive onto a different, existing destination slot succeeds for
either value of the flag — `AlreadyExists` is never raised — replacing the
destination slot's title and payload (its stored tag is kept) with the new
title and the source payload, and clearing the source slot in place. -/
theorem c6_rename_overwrite_ignored (oldP newP : Str) (ov : Bool) (rng : List Nat) (e : Entry)
    (oi ni : ParsedPath) (ho : parse oldP = some oi) (hn : parse newP = some ni)
    (hio : ¬oi.index < 0) (hin : ¬ni.index < 0) (hfile : oi.file = ni.file)
    (hne : oi.index ≠ ni.index) (src dst : Item)
    (hsrc : e.contents.get? oi.index.toNat = some src) (htitle : src.title = oi.title)
    (hdst : e.contents.get? ni.index.toNat = some dst) :
    (renameOp oldP newP ov rng e).error = none
      ∧ (renameOp oldP newP ov rng e).entry.contents
          = (e.contents.set oi.index.toNat ⟨src.magic, [], []⟩).set ni.index.toNat
              ⟨dst.magic, ni.title, src.code⟩ := by
  have hij : oi.index.toNat ≠ ni.index.toNat := by omega
  have hjlen : ni.index.toNat < e.contents.length := by
    by_contra hcon
    push_neg at hcon
    rw [List.get?_eq_none.mpr hcon] at hdst
    exact Option.noConfusion hdst
  unfold renameOp
  rw [ho]
  try dsimp only
  rw [if_neg hio, hn]
  try dsimp only
  rw [if_neg hin, if_neg (by simp [hfile]), hsrc]
  try dsimp only
  rw [if_neg (by simp [htitle]), if_neg hne]
  try dsimp only
  rw [renamePadLoop_of_le _ (by rw [List.length_set]; omega)]
  try dsimp only
  rw [if_neg (by rw [List.length_set]; omega)]
  rw [get?_set_ne _ _ _ _ hij, hdst]
  try dsimp only
  exact ⟨rfl, rfl⟩

/-! ### Claim C4: writing an existing slot with a changed title -/

/-- C4 (amended): writing an existing slot (create and overwrite both
permitted) fires exactly one event — `Changed`, for the new canonical name —
with no Deleted/Created pair, and replaces the whole record: the path's title
and the new payload are stored, and the slot's tag is NOT preserved but
replaced by a fresh random tag (line 231's `this._empty() ||
entry.contents[info.index]` always takes the fresh `_empty()` record). -/
theorem c4_write_retitle (p content : Str) (rng : List Nat) (e : Entry)
    (info : ParsedPath) (hp : parse p = some info) (hi : ¬info.index < 0)
    (hlt : info.index.toNat < e.contents.length) :
    writeFileOp p content true true rng e
      = ⟨none,
         ⟨e.contents.set info.index.toNat ⟨rng.headD 0, info.title, content⟩,
          e.contents.length⟩,
         [⟨.changed, info.file ++ '/' :: name_ info.index.toNat info.title⟩]⟩ := by
  unfold writeFileOp
  rw [hp]
  try dsimp only
  rw [if_neg hi]
  rw [if_neg (by simp)]
  rw [if_neg (by simp)]
  rw [padLoop_of_le _ (by omega)]
  try dsimp only
  simp only [if_neg (show ¬(info.index.toNat = e.contents.length) from by omega)]
  have huri : uriOf info.file
      (e.contents.set info.index.toNat ⟨rng.headD 0, info.title, content⟩) info.index.toNat
      = some (info.file ++ '/' :: name_ info.index.toNat info.title) := by
    unfold uriOf
    rw [get?_set_self _ _ _ hlt]
    rfl
  rw [huri]
  simp [List.length_set]

/-! ### Claim C5: search counting -/

theorem firstIdx_eq_none_iff (pat s : Str) :
    firstIdx pat s = none ↔ ∀ j, isPfx pat (s.drop j) = false := by
  induction s with
  | nil =>
    cases hp : isPfx pat [] with
    | true =>
      simp only [firstIdx, hp, if_true]
      constructor
      · rintro ⟨⟩
      · intro h
        have h0 := h 0
        simp only [List.drop_nil] at h0
        rw [hp] at h0
        exact Bool.noConfusion h0
    | false =>
      simp only [firstIdx, hp, Bool.false_eq_true, if_false, true_iff]
      intro j
      simpa using hp
  | cons c rest ih =>
    cases hp : isPfx pat (c :: rest) with
    | true =>
      simp only [firstIdx, hp, if_true]
      constructor
      · rintro ⟨⟩
      · intro h
        have h0 := h 0
        simp only [List.drop_zero] at h0
        rw [hp] at h0
        exact Bool.noConfusion h0
    | false =>
      simp only [firstIdx, hp, Bool.false_eq_true, if_false, Option.map_eq_none']
      rw [ih]
      constructor
      · intro h j
        cases j with
        | zero => simpa using hp
        | succ j' => simpa using h j'
      · intro h j
        simpa using h (j + 1)

theorem firstIdx_le_length {pat s : Str} {k : Nat} (h : firstIdx pat s = some k) :
    k ≤ s.length := by
  induction s generalizing k with
  | nil =>
    simp only [firstIdx] at h
    split at h
    · injection h with h
      omega
    · exact Option.noConfusion h
  | cons c rest ih =>
    simp only [firstIdx] at h
    split at h
    · injection h with h
      omega
    · rcases Option.map_eq_some'.mp h with ⟨k', hk', rfl⟩
      have := ih hk'
      simp only [List.length_cons]
      omega

theorem indices_eq_nil_iff (l t : Str) : indices l t = [] ↔ firstIdx t l = none := by
  unfold indices
  cases hf : firstIdx t l with
  | none => simp [indicesAux, jsIndexOfFrom, hf]
  | some k => simp [indicesAux, jsIndexOfFrom, hf]

theorem occursIn_eq_not_isEmpty (t l : Str) : occursIn t l = !(indices l t).isEmpty := by
  cases he : (indices l t).isEmpty with
  | true =>
    have hnil : indices l t = [] := List.isEmpty_iff.mp he
    have hnone : firstIdx t l = none := (indices_eq_nil_iff l t).mp hnil
    have hall := (firstIdx_eq_none_iff t l).mp hnone
    simp only [Bool.not_true]
    unfold occursIn
    rw [List.any_eq_false]
    intro k hk
    simp [hall k]
  | false =>
    have hnil : indices l t ≠ [] := by
      intro hh
      rw [List.isEmpty_iff.mpr hh] at he
      exact Bool.noConfusion he
    have hsome : firstIdx t l ≠ none := fun hh => hnil ((indices_eq_nil_iff l t).mpr hh)
    rcases Option.ne_none_iff_exists'.mp hsome with ⟨k, hk⟩
    rcases (firstIdx_eq_some_iff _ _ _).mp hk with ⟨h1, -⟩
    have hkle : k ≤ l.length := firstIdx_le_length hk
    simp only [Bool.not_false]
    unfold occursIn
    rw [List.any_eq_true]
    exact ⟨k, by simp [List.mem_range]; omega, h1⟩

theorem enum_block_length (t : Str) (i : Nat) (lines : List Str) : ∀ n,
    ((lines.enumFrom n).filterMap fun jl =>
        let cols := indices jl.2 t
        if cols.isEmpty then none else some (⟨i, jl.1, cols⟩ : Hit)).length
      = lines.countP fun l => !(indices l t).isEmpty := by
  induction lines with
  | nil => intro n; rfl
  | cons a rest ih =>
    intro n
    rw [List.enumFrom_cons, List.filterMap_cons]
    cases hp : (indices a t).isEmpty with
    | true =>
      simp only [hp, if_true, List.countP_cons, Bool.not_true]
      rw [ih (n + 1)]
      simp
    | false =>
      simp only [hp, Bool.false_eq_true, if_false, List.length_cons, List.countP_cons,
        Bool.not_false]
      rw [ih (n + 1)]
      simp

theorem collectAux_length (t : Str) : ∀ (i : Nat) (recs : List (List Str)),
    (collectAux t i recs).length
      = (recs.map fun lines => lines.countP fun l => !(indices l t).isEmpty).sum := by
  intro i recs
  induction recs generalizing i with
  | nil => rfl
  | cons lines rest ih =>
    simp only [collectAux, List.length_append, List.map_cons, List.sum_cons, ih (i + 1)]
    congr 1
    exact enum_block_length t i lines 0

theorem collectAux_index_ge (t : Str) : ∀ (i : Nat) (recs : List (List Str)) (h : Hit),
    h ∈ collectAux t i recs → i ≤ h.index := by
  intro i recs
  induction recs generalizing i with
  | nil =>
    intro h hh
    simp [collectAux] at hh
  | cons lines rest ih =>
    intro h hh
    simp only [collectAux, List.mem_append] at hh
    rcases hh with hh | hh
    · rcases List.mem_filterMap.mp hh with ⟨jl, -, hjl⟩
      by_cases hp : (indices jl.2 t).isEmpty = true
      · simp only [hp, if_true] at hjl
        exact Option.noConfusion hjl
      · simp only [hp, Bool.false_eq_true, if_false] at hjl
        injection hjl with hjl
        subst hjl
        exact le_refl i
    · have := ih (i + 1) h hh
      omega

theorem block_index_eq (t : Str) (i : Nat) (lines : List (Nat × Str)) :
    ∀ h ∈ (lines.filterMap fun jl =>
        let cols := indices jl.2 t
        if cols.isEmpty then none else some (⟨i, jl.1, cols⟩ : Hit)), h.index = i := by
  intro h hh
  rcases List.mem_filterMap.mp hh with ⟨jl, -, hjl⟩
  by_cases hp : (indices jl.2 t).isEmpty = true
  · simp only [hp, if_true] at hjl
    exact Option.noConfusion hjl
  · simp only [hp, Bool.false_eq_true, if_false] at hjl
    injection hjl with hjl
    subst hjl
    rfl

theorem dedup_length_replicate_append {a : Nat} {tl : List Nat} (m : Nat) (ha : a ∉ tl) :
    (List.replicate m a ++ tl).dedup.length = (if m = 0 then 0 else 1) + tl.dedup.length := by
  induction m with
  | zero => simp
  | succ m' ih =>
    rw [List.replicate_succ, List.cons_append]
    by_cases hm : m' = 0
    · subst hm
      simp only [List.replicate_zero, List.nil_append]
      rw [List.dedup_cons_of_not_mem ha]
      simp only [List.length_cons, if_neg (show ¬(0 + 1 = 0) from by omega)]
      omega
    · have hmem : a ∈ List.replicate m' a ++ tl := by
        refine List.mem_append.mpr (Or.inl ?_)
        exact List.mem_replicate.mpr ⟨hm, rfl⟩
      rw [List.dedup_cons_of_mem hmem, ih]
      simp [hm]

theorem collectAux_dedup (t : Str) : ∀ (i : Nat) (recs : List (List Str)),
    ((collectAux t i recs).map Hit.index).dedup.length
      = recs.countP fun lines => lines.any fun l => !(indices l t).isEmpty := by
  intro i recs
  induction recs generalizing i with
  | nil => rfl
  | cons lines rest ih =>
    simp only [collectAux, List.map_append]
    set block := lines.enum.filterMap fun jl =>
        let cols := indices jl.2 t
        if cols.isEmpty then none else some (⟨i, jl.1, cols⟩ : Hit) with hblockdef
    have hrepl : block.map Hit.index = List.replicate (block.map Hit.index).length i := by
      refine List.eq_replicate_of_mem ?_
      intro b hb
      rcases List.mem_map.mp hb with ⟨h, hh, rfl⟩
      exact block_index_eq t i lines.enum h hh
    have hnotmem : i ∉ (collectAux t (i + 1) rest).map Hit.index := by
      intro hmem
      rcases List.mem_map.mp hmem with ⟨h, hh, hidx⟩
      have := collectAux_index_ge t (i + 1) rest h hh
      omega
    rw [hrepl, dedup_length_replicate_append _ hnotmem, ih (i + 1), List.countP_cons]
    have hlenb : (block.map Hit.index).length = lines.countP fun l => !(indices l t).isEmpty := by
      rw [List.length_map]
      exact enum_block_length t i lines 0
    by_cases hany : (lines.any fun l => !(indices l t).isEmpty) = true
    · have hpos : lines.countP (fun l => !(indices l t).isEmpty) ≠ 0 := by
        rcases List.any_eq_true.mp hany with ⟨x, hx, hpx⟩
        intro hzero
        exact (List.countP_eq_zero.mp hzero x hx) hpx
      rw [if_neg (by omega), hany]
      simp only [if_true]
      omega
    · have hzero : lines.countP (fun l => !(indices l t).isEmpty) = 0 := by
        rw [List.countP_eq_zero]
        intro x hx hpx
        exact hany (List.any_eq_true.mpr ⟨x, hx, hpx⟩)
      rw [if_pos (by omega)]
      simp only [Bool.not_eq_true] at hany
      rw [hany]
      simp

theorem getLast?_append_two {α : Type} (l : List α) (a b : α) :
    (l ++ [a, b]).getLast? = some b := by
  rw [show l ++ [a, b] = (l ++ [a]) ++ [b] by simp, List.getLast?_concat]

theorem collectOf_length_spec (contents : List Item) (t : Str) :
    (collectOf contents t).length = specMatchLines contents t := by
  unfold collectOf specMatchLines cacheOf
  rw [collectAux_length, List.map_map]
  congr 1
  refine List.map_congr_left ?_
  intro it hit
  simp only [Function.comp_apply]
  refine List.countP_congr ?_
  intro l hl
  rw [occursIn_eq_not_isEmpty]

theorem collectOf_dedup_spec (contents : List Item) (t : Str) :
    ((collectOf contents t).map Hit.index).dedup.length = specFiles contents t := by
  unfold collectOf specFiles cacheOf
  rw [collectAux_dedup, List.countP_map]
  refine List.countP_congr ?_
  intro it hit
  simp only [Function.comp_apply]
  constructor
  · intro hcode
    refine List.any_eq_true.mpr ?_
    rcases List.any_eq_true.mp hcode with ⟨l, hl, hpl⟩
    exact ⟨l, hl, by rw [occursIn_eq_not_isEmpty]; exact hpl⟩
  · intro hcode
    refine List.any_eq_true.mpr ?_
    rcases List.any_eq_true.mp hcode with ⟨l, hl, hpl⟩
    exact ⟨l, hl, by rw [occursIn_eq_not_isEmpty] at hpl; exact hpl⟩

/-- C5 (amended): search's reported "match" count is the number of LINES
(across all records) containing at least one occurrence of the needle — not
the number of occurrences — while the reported file count is the number of
distinct records containing at least one matching line; pluralization follows
the `n ≤ 1 → singular` rule of the source; a needle occurring nowhere yields
exactly the two header message lines followed by the literal message
"0 matches", with no match or title lines. -/
theorem c5_search_counts (contents : List Item) (t : Str) (hne : t ≠ []) :
    (collectOf contents t).length = specMatchLines contents t
      ∧ ((collectOf contents t).map Hit.index).dedup.length = specFiles contents t
      ∧ (specMatchLines contents t = 0 →
          rg contents t
            = [⟨.message, strL "Searching " ++ natToStr contents.length
                  ++ strL " files for \"" ++ t ++ ['"'], none⟩,
               ⟨.message, [], none⟩,
               ⟨.message, strL "0 matches", none⟩])
      ∧ (specMatchLines contents t ≠ 0 →
          (rg contents t).getLast?
            = some ⟨.message, summaryText (specMatchLines contents t) (specFiles contents t),
                none⟩) := by
  refine ⟨collectOf_length_spec contents t, collectOf_dedup_spec contents t, ?_, ?_⟩
  · intro hzero
    have hnil : collectOf contents t = [] := by
      rw [← List.length_eq_zero, collectOf_length_spec]
      exact hzero
    unfold rg
    rw [if_pos (by simp [hnil])]
    rfl
  · intro hpos
    have hnil : ¬(collectOf contents t).isEmpty = true := by
      rw [List.isEmpty_iff]
      intro hh
      rw [← collectOf_length_spec contents t, hh] at hpos
      exact hpos rfl
    unfold rg
    rw [if_neg hnil]
    rw [getLast?_append_two]
    rw [collectOf_length_spec contents t, collectOf_dedup_spec contents t]

/-! ### Concrete inputs for counterexamples and witnesses -/

/-- `[(1,"Main",A),(2,"Util",B)]`, the archive of the C4 scenario. -/
def c4Entry : Entry := ⟨[⟨1, strL "Main", strL "A"⟩, ⟨2, strL "Util", strL "B"⟩], 2⟩

/-- One record whose payload contains the needle "ab" twice without overlap. -/
def c5Entry : List Item := [⟨1, strL "T", strL "abab"⟩]

/-- Two records, used to rename slot 0 onto the non-empty slot 1. -/
def c6Entry : Entry := ⟨[⟨1, strL "A", strL "a"⟩, ⟨2, strL "B", strL "b"⟩], 2⟩

/-- A 1-record archive for the lookup-miss scenarios. -/
def c8Entry : Entry := ⟨[⟨1, strL "T", strL "x"⟩], 1⟩

/-- A 1-record archive for the delete-last scenario. -/
def c9Entry : Entry := ⟨[⟨7, strL "T", strL "x"⟩], 1⟩

/-! ### Counterexamples and witnesses -/

/-- Witness for C2: the round trip at `file = "/a/Scripts.rvdata2"`, `i = 1`,
`t = "Title"`. -/
theorem c2_witness :
    parse (strL "/a/Scripts.rvdata2") = some ⟨strL "/a/Scripts.rvdata2", -1, []⟩
      ∧ ('/' ∉ strL "Title")
      ∧ parse (strL "/a/Scripts.rvdata2" ++ '/' :: name_ 1 (strL "Title"))
          = some ⟨strL "/a/Scripts.rvdata2", (1 : Int), strL "Title"⟩ :=
  ⟨by decide, by decide,
    c2_parse_format_roundtrip (strL "/a/Scripts.rvdata2") 1 (strL "Title") (by decide) (by decide)⟩

/-- C4 counterexample: starting from `[(1,"Main",A),(2,"Util",B)]` and writing
the "Util" slot with title "Util2" and payload B, the code fires a single
`Changed` event for the new canonical name — not the claimed Deleted(old name)
then Created(new name) pair — and the written slot's tag is replaced by the
fresh random tag 7 instead of the claimed preserved tags `[1, 2]`. -/
theorem c4_cex :
    (writeFileOp (strL "/r/Scripts.rvdata2/001_Util2.rb") (strL "B") true true [7] c4Entry).events
        = [⟨.changed, strL "/r/Scripts.rvdata2/001_Util2.rb"⟩]
      ∧ (writeFileOp (strL "/r/Scripts.rvdata2/001_Util2.rb") (strL "B") true true [7] c4Entry).events
          ≠ [⟨.deleted, strL "/r/Scripts.rvdata2/001_Util.rb"⟩,
             ⟨.created, strL "/r/Scripts.rvdata2/001_Util2.rb"⟩]
      ∧ (writeFileOp (strL "/r/Scripts.rvdata2/001_Util2.rb") (strL "B") true true [7] c4Entry).entry.contents.map Item.magic
          ≠ [1, 2] := by
  refine ⟨by rfl, by decide, by decide⟩

/-- Witness for C4: the amended behaviour at the same concrete input. -/
theorem c4_witness :
    parse (strL "/r/Scripts.rvdata2/001_Util2.rb")
        = some ⟨strL "/r/Scripts.rvdata2", 1, strL "Util2"⟩
      ∧ writeFileOp (strL "/r/Scripts.rvdata2/001_Util2.rb") (strL "B") true true [7] c4Entry
          = ⟨none,
             ⟨[⟨1, strL "Main", strL "A"⟩, ⟨7, strL "Util2", strL "B"⟩], 2⟩,
             [⟨.changed, strL "/r/Scripts.rvdata2/001_Util2.rb"⟩]⟩ := by
  refine ⟨by decide, ?_⟩
  have h := c4_write_retitle (strL "/r/Scripts.rvdata2/001_Util2.rb") (strL "B") [7] c4Entry
    ⟨strL "/r/Scripts.rvdata2", 1, strL "Util2"⟩ (by decide) (by decide) (by decide)
  rw [h]
  rfl

/-- C5 counterexample: the record "abab" contains 2 non-overlapping
occurrences of "ab", yet search reports "1 match" (it counts matching lines,
not occurrences). -/
theorem c5_cex :
    (collectOf c5Entry (strL "ab")).length = 1
      ∧ specNonOverlapTotal c5Entry (strL "ab") = 2
      ∧ ¬((collectOf c5Entry (strL "ab")).length = specNonOverlapTotal c5Entry (strL "ab"))
      ∧ (rg c5Entry (strL "ab")).getLast?
          = some ⟨.message, strL "1 match across 1 file", none⟩ := by
  refine ⟨by rfl, by rfl, by decide, by rfl⟩

/-- Witness for C5 at the archive `[(1,"T","abab")]` and needle "ab". -/
theorem c5_witness :
    (strL "ab" ≠ [])
      ∧ ((collectOf c5Entry (strL "ab")).length = specMatchLines c5Entry (strL "ab")
          ∧ ((collectOf c5Entry (strL "ab")).map Hit.index).dedup.length
              = specFiles c5Entry (strL "ab")
          ∧ (specMatchLines c5Entry (strL "ab") = 0 →
              rg c5Entry (strL "ab")
                = [⟨.message, strL "Searching " ++ natToStr c5Entry.length
                      ++ strL " files for \"" ++ strL "ab" ++ ['"'], none⟩,
                   ⟨.message, [], none⟩,
                   ⟨.message, strL "0 matches", none⟩])
          ∧ (specMatchLines c5Entry (strL "ab") ≠ 0 →
              (rg c5Entry (strL "ab")).getLast?
                = some ⟨.message,
                    summaryText (specMatchLines c5Entry (strL "ab"))
                      (specFiles c5Entry (strL "ab")), none⟩)) :=
  ⟨by decide, c5_search_counts c5Entry (strL "ab") (by decide)⟩

/-- C6 counterexample: renaming `000_A.rb` to `001_C.rb` with a non-empty
destination slot and `overwrite` NOT set succeeds (no `FileExists`/
`AlreadyExists` is raised) and replaces the destination. -/
theorem c6_cex :
    (renameOp (strL "/r/Scripts.rvdata2/000_A.rb") (strL "/r/Scripts.rvdata2/001_C.rb")
        false [] c6Entry).error = none
      ∧ (renameOp (strL "/r/Scripts.rvdata2/000_A.rb") (strL "/r/Scripts.rvdata2/001_C.rb")
          false [] c6Entry).error ≠ some FsErr.fileExists
      ∧ (renameOp (strL "/r/Scripts.rvdata2/000_A.rb") (strL "/r/Scripts.rvdata2/001_C.rb")
          false [] c6Entry).entry.contents.map Item.title = [[], strL "C"] := by
  refine ⟨by rfl, by decide, by rfl⟩

/-- Witness for C6 at the same concrete input (with `overwrite = false`). -/
theorem c6_witness :
    parse (strL "/r/Scripts.rvdata2/000_A.rb") = some ⟨strL "/r/Scripts.rvdata2", 0, strL "A"⟩
      ∧ c6Entry.contents.get? 1 = some ⟨2, strL "B", strL "b"⟩
      ∧ isEmptyItem ⟨2, strL "B", strL "b"⟩ = false
      ∧ (renameOp (strL "/r/Scripts.rvdata2/000_A.rb") (strL "/r/Scripts.rvdata2/001_C.rb")
          false [] c6Entry).error = none
      ∧ (renameOp (strL "/r/Scripts.rvdata2/000_A.rb") (strL "/r/Scripts.rvdata2/001_C.rb")
          false [] c6Entry).entry.contents
          = (c6Entry.contents.set 0 ⟨1, [], []⟩).set 1 ⟨2, strL "C", strL "a"⟩ := by
  have h := c6_rename_overwrite_ignored (strL "/r/Scripts.rvdata2/000_A.rb")
    (strL "/r/Scripts.rvdata2/001_C.rb") false [] c6Entry
    ⟨strL "/r/Scripts.rvdata2", 0, strL "A"⟩ ⟨strL "/r/Scripts.rvdata2", 1, strL "C"⟩
    (by decide) (by decide) (by decide) (by decide) rfl (by decide)
    ⟨1, strL "A", strL "a"⟩ ⟨2, strL "B", strL "b"⟩ (by decide) rfl (by decide)
  exact ⟨by decide, by decide, by decide, h.1, h.2⟩

/-- C7 counterexample: a rename between two distinct archive paths does not
succeed — it throws `NoPermissions` and touches nothing. -/
theorem c7_cex :
    renameOp (strL "/a/Scripts.rvdata2/000_X.rb") (strL "/b/Scripts.rvdata2/000_X.rb")
        true [] ⟨[⟨1, strL "X", strL "x"⟩], 1⟩
      = ⟨some .noPermissions, ⟨[⟨1, strL "X", strL "x"⟩], 1⟩, []⟩
    ∧ (renameOp (strL "/a/Scripts.rvdata2/000_X.rb") (strL "/b/Scripts.rvdata2/000_X.rb")
        true [] ⟨[⟨1, strL "X", strL "x"⟩], 1⟩).error ≠ none := by
  refine ⟨by rfl, by decide⟩

/-- Witness for C7 at two distinct archive paths. -/
theorem c7_witness :
    parse (strL "/a/Scripts.rvdata2/000_X.rb") = some ⟨strL "/a/Scripts.rvdata2", 0, strL "X"⟩
      ∧ parse (strL "/b/Scripts.rvdata2/000_X.rb") = some ⟨strL "/b/Scripts.rvdata2", 0, strL "X"⟩
      ∧ strL "/a/Scripts.rvdata2" ≠ strL "/b/Scripts.rvdata2"
      ∧ renameOp (strL "/a/Scripts.rvdata2/000_X.rb") (strL "/b/Scripts.rvdata2/000_X.rb")
          true [] ⟨[⟨1, strL "X", strL "x"⟩], 1⟩
        = ⟨some .noPermissions, ⟨[⟨1, strL "X", strL "x"⟩], 1⟩, []⟩ :=
  ⟨by decide, by decide, by decide,
    c7_cross_archive_rename (strL "/a/Scripts.rvdata2/000_X.rb")
      (strL "/b/Scripts.rvdata2/000_X.rb") true [] ⟨[⟨1, strL "X", strL "x"⟩], 1⟩
      ⟨strL "/a/Scripts.rvdata2", 0, strL "X"⟩ ⟨strL "/b/Scripts.rvdata2", 0, strL "X"⟩
      (by decide) (by decide) (by decide) (by decide) (by decide)⟩

/-- C8 counterexample: deleting a path whose parsed index has no stored slot
(index 5 of a 1-record archive) is silently coerced into success — no
`FileNotFound` is surfaced, contradicting the claim. -/
theorem c8_cex :
    (deleteOp (strL "/r/Scripts.rvdata2/005_X.rb") c8Entry).error = none
      ∧ (deleteOp (strL "/r/Scripts.rvdata2/005_X.rb") c8Entry).error ≠ some FsErr.notFound
      ∧ deleteOp (strL "/r/Scripts.rvdata2/005_X.rb") c8Entry = ⟨none, c8Entry, []⟩ := by
  refine ⟨by rfl, by decide, by rfl⟩

/-- Witness for C8: the missing-slot branch at index 5 of a 1-record
archive. -/
theorem c8_witness :
    parse (strL "/r/Scripts.rvdata2/005_X.rb") = some ⟨strL "/r/Scripts.rvdata2", 5, strL "X"⟩
      ∧ c8Entry.contents.get? 5 = none
      ∧ statOp (strL "/r/Scripts.rvdata2/005_X.rb") c8Entry = .error .notFound
      ∧ readFileOp (strL "/r/Scripts.rvdata2/005_X.rb") c8Entry = .error .notFound
      ∧ renameOp (strL "/r/Scripts.rvdata2/005_X.rb") (strL "/r/Scripts.rvdata2/000_T.rb")
          false [] c8Entry = ⟨some .notFound, c8Entry, []⟩
      ∧ deleteOp (strL "/r/Scripts.rvdata2/005_X.rb") c8Entry = ⟨none, c8Entry, []⟩ := by
  have h := (c8_lookup_miss c8Entry
    (strL "/r/Scripts.rvdata2/005_X.rb") (strL "/r/Scripts.rvdata2/000_T.rb")
    ⟨strL "/r/Scripts.rvdata2", 5, strL "X"⟩ ⟨strL "/r/Scripts.rvdata2", 0, strL "T"⟩
    (by decide) (by decide) (by decide) (by decide) rfl).1 (by decide)
  exact ⟨by decide, by decide, h.1, h.2.1, h.2.2.1 false [], h.2.2.2⟩

/-- C9 counterexample: deleting index 0 of a 1-record archive empties the
persisted sequence but emits NO event at all — not the claimed single
Deleted event. -/
theorem c9_cex :
    (deleteOp (strL "/r/Scripts.rvdata2/000_T.rb") c9Entry).events = []
      ∧ (deleteOp (strL "/r/Scripts.rvdata2/000_T.rb") c9Entry).entry.contents = []
      ∧ ¬((deleteOp (strL "/r/Scripts.rvdata2/000_T.rb") c9Entry).events.length = 1) := by
  refine ⟨by rfl, by rfl, by decide⟩

/-- Witness for C9: deleting the single record of a 1-record archive. -/
theorem c9_witness :
    parse (strL "/r/Scripts.rvdata2/000_T.rb")
        = some ⟨strL "/r/Scripts.rvdata2", ((c9Entry.contents.length - 1 : Nat) : Int), strL "T"⟩
      ∧ c9Entry.contents ≠ []
      ∧ c9Entry.contents.getLast?.map Item.title = some (strL "T")
      ∧ deleteOp (strL "/r/Scripts.rvdata2/000_T.rb") c9Entry = ⟨none, ⟨[], 0⟩, []⟩ := by
  refine ⟨by decide, by decide, by decide, ?_⟩
  have h := c9_delete_last c9Entry (strL "/r/Scripts.rvdata2/000_T.rb")
    (strL "/r/Scripts.rvdata2") (strL "T") (by decide) (by decide) (by decide)
  rw [h]
  rfl

/-- Witness for C10: write a new record into an empty archive and read it
back. -/
theorem c10_witness :
    (writeFileOp (strL "/r/Scripts.rvdata2/000_New.rb") (strL "hello") true true [3] ⟨[], 0⟩).error
        = none
      ∧ readFileOp (strL "/r/Scripts.rvdata2/000_New.rb")
          (writeFileOp (strL "/r/Scripts.rvdata2/000_New.rb") (strL "hello") true true [3] ⟨[], 0⟩).entry
        = .ok (strL "hello") :=
  ⟨by decide,
    c10_write_read_roundtrip (strL "/r/Scripts.rvdata2/000_New.rb") (strL "hello") true true [3]
      ⟨[], 0⟩ (by decide)⟩

end RGSS
